import Mathlib

/-!
Shallow embedding of the urbanii intelligence analyzers
(`inference/intelligence/{crowd,highway,industrial,loiter}.py`) and of the
backend frame-ingestion endpoint (`backend/src/main.py`), together with
proofs of the specification claims about them.

Python floats are modelled as exact rationals (`ℚ`); Python dicts of
detections are modelled as a `Detection` structure whose fields are
`Option`s (a missing key is `none`).  Subscript access `d["k"]` is
fallible (it raises `KeyError` in Python), so code paths that use it are
embedded in the `Option` monad; `d.get("k")` simply reads the `Option`.
Euclidean distances in the loiter tracker are compared squared: since
`Real.sqrt` is strictly monotone on nonnegatives, comparing squared
distances against squared thresholds is equivalent to the source's
comparisons for the nonnegative radii the source uses (defaults 60 px,
sentinel 1e9).
-/

namespace Urbanii

/-- A YOLO detection dict.  `class_name` and `bbox` may be absent
(`none`); `bbox` is `[x1, y1, x2, y2]`. -/
structure Detection where
  class_name : Option String
  bbox : Option (ℚ × ℚ × ℚ × ℚ)
deriving DecidableEq, Repr

/-- `deque(maxlen=maxlen)` append: push on the right, dropping from the
left when the deque is full. -/
def pushHist (maxlen : ℕ) (h : List ℕ) (x : ℕ) : List ℕ :=
  let h2 := h ++ [x]
  if maxlen < h2.length then h2.drop (h2.length - maxlen) else h2

/-- `sum(lst[-3:]) / 3` over a history of counts. -/
def avgRecent (h : List ℕ) : ℚ :=
  (((h.drop (h.length - 3)).sum : ℕ) : ℚ) / 3

/-- `sum(lst[-6:-3]) / 3` over a history of counts. -/
def avgEarlier (h : List ℕ) : ℚ :=
  ((((h.drop (h.length - 6)).take 3).sum : ℕ) : ℚ) / 3

/-! ### CrowdAnalyzer (`crowd.py`) -/

structure CrowdState where
  maxlen : ℕ
  history : List ℕ
deriving DecidableEq, Repr

/-- `CrowdAnalyzer.__init__(history_size=30)`. -/
def CrowdState.init (history_size : ℕ := 30) : CrowdState :=
  { maxlen := history_size, history := [] }

structure CrowdOutput where
  count : ℕ
  density : String
  trend : String
  zones_left : ℕ
  zones_center : ℕ
  zones_right : ℕ
deriving DecidableEq, Repr

/-- `[d for d in detections if d["class_name"] == "person"]`: subscript
access raises `KeyError` when the key is missing, so the whole filter is
fallible. -/
def personsSubscript : List Detection → Option (List Detection)
  | [] => some []
  | d :: ds => do
      let c ← d.class_name
      let rest ← personsSubscript ds
      if c = "person" then return d :: rest else return rest

/-- The zone loop of `CrowdAnalyzer.analyze`: `x1, _, x2, _ = p["bbox"]`
(fallible), `cx = (x1 + x2) / 2`, bucketed by thirds of the frame width.
Returns `(left, center, right)`. -/
def crowdZones (frame_width : ℚ) : List Detection → Option (ℕ × ℕ × ℕ)
  | [] => some (0, 0, 0)
  | p :: ps => do
      let (x1, _, x2, _) ← p.bbox
      let (l, c, r) ← crowdZones frame_width ps
      let cx := (x1 + x2) / 2
      if cx < frame_width * (33 / 100) then return (l + 1, c, r)
      else if cx < frame_width * (66 / 100) then return (l, c + 1, r)
      else return (l, c, r + 1)

/-- `CrowdAnalyzer.analyze(detections, frame_width)`.  Density
`count / (frame_width / 1000)` raises `ZeroDivisionError` when the
divisor is zero, hence the guard; the trend block appends to history and
classifies only when `count >= 3`, with no `earlier > 0` guard on either
trend branch. -/
def CrowdAnalyzer.analyze (s : CrowdState) (detections : List Detection)
    (frame_width : ℚ) : Option (CrowdOutput × CrowdState) := do
  let persons ← personsSubscript detections
  let count := persons.length
  let (zl, zc, zr) ← crowdZones frame_width persons
  if frame_width / 1000 = 0 then failure
  let density_score := (count : ℚ) / (frame_width / 1000)
  let density :=
    if density_score < 8 then "low"
    else if density_score < 16 then "medium"
    else "high"
  let (trend, history2) :=
    if 3 ≤ count then
      let h2 := pushHist s.maxlen s.history count
      if 6 ≤ h2.length then
        if avgRecent h2 > avgEarlier h2 * (12 / 10) then ("increasing", h2)
        else if avgRecent h2 < avgEarlier h2 * (8 / 10) then ("decreasing", h2)
        else ("stable", h2)
      else ("stable", h2)
    else ("stable", s.history)
  return ({ count := count, density := density, trend := trend,
            zones_left := zl, zones_center := zc, zones_right := zr },
          { s with history := history2 })

/-! ### HighwayAnalyzer (`highway.py`) -/

def VEHICLE_CLASSES : List String := ["car", "truck", "bus", "motorbike"]

structure HighwayState where
  maxlen : ℕ
  history : List ℕ
deriving DecidableEq, Repr

def HighwayState.init (history_size : ℕ := 30) : HighwayState :=
  { maxlen := history_size, history := [] }

structure HighwayOutput where
  vehicle_count : ℕ
  density : String
  trend : String
  pedestrian_in_roadway : Bool
  risk : String
deriving DecidableEq, Repr

/-- `d.get("class_name") in VEHICLE_CLASSES` (`None` is in no set). -/
def isVehicle (d : Detection) : Bool :=
  match d.class_name with
  | some c => VEHICLE_CLASSES.contains c
  | none => false

/-- `d.get("class_name") == "person"`. -/
def isPersonGet (d : Detection) : Bool :=
  match d.class_name with
  | some c => c = "person"
  | none => false

/-- `p.get("bbox", [0,0,0,0])`. -/
def bboxOrZero (d : Detection) : ℚ × ℚ × ℚ × ℚ :=
  d.bbox.getD (0, 0, 0, 0)

/-- Vertical centroid `cy = (y1 + y2) / 2` of `p.get("bbox", [0,0,0,0])`. -/
def cyOf (d : Detection) : ℚ :=
  let (_, y1, _, y2) := bboxOrZero d
  (y1 + y2) / 2

/-- The trend block shared verbatim by `highway.py` and `industrial.py`:
both branches are guarded by `earlier > 0`. -/
def guardedTrend (h : List ℕ) : String :=
  if 6 ≤ h.length then
    if avgEarlier h > 0 ∧ avgRecent h > avgEarlier h * (12 / 10) then "increasing"
    else if avgEarlier h > 0 ∧ avgRecent h < avgEarlier h * (8 / 10) then "decreasing"
    else "stable"
  else "stable"

/-- `HighwayAnalyzer.analyze(detections, frame_height)`. -/
def HighwayAnalyzer.analyze (s : HighwayState) (detections : List Detection)
    (frame_height : ℚ) : HighwayOutput × HighwayState :=
  let vehicles := detections.filter isVehicle
  let persons := detections.filter isPersonGet
  let vehicle_count := vehicles.length
  let h2 := pushHist s.maxlen s.history vehicle_count
  let density :=
    if vehicle_count < 6 then "low"
    else if vehicle_count < 15 then "medium"
    else "high"
  let trend := guardedTrend h2
  let pedestrian_in_roadway := persons.any fun p => cyOf p > frame_height * (60 / 100)
  let risk := if pedestrian_in_roadway ∧ 0 < vehicle_count then "elevated" else "normal"
  ({ vehicle_count := vehicle_count, density := density, trend := trend,
     pedestrian_in_roadway := pedestrian_in_roadway, risk := risk },
   { s with history := h2 })

/-! ### IndustrialAnalyzer (`industrial.py`) -/

def INDUSTRIAL_VEHICLE_CLASSES : List String :=
  ["car", "truck", "bus", "motorbike", "motorcycle"]

def MACHINE_CLASSES : List String := ["forklift"]

def isIndustrialVehicle (d : Detection) : Bool :=
  match d.class_name with
  | some c => INDUSTRIAL_VEHICLE_CLASSES.contains c
  | none => false

def isMachine (d : Detection) : Bool :=
  match d.class_name with
  | some c => MACHINE_CLASSES.contains c
  | none => false

structure IndustrialState where
  maxlen : ℕ
  worker_hist : List ℕ
  op_zone_start : ℚ
deriving DecidableEq, Repr

/-- `IndustrialAnalyzer.__init__(history_size=30, op_zone_start=0.60)`. -/
def IndustrialState.init (history_size : ℕ := 30)
    (op_zone_start : ℚ := 60 / 100) : IndustrialState :=
  { maxlen := history_size, worker_hist := [], op_zone_start := op_zone_start }

structure IndustrialAlert where
  type : String
  message : String
  workers_in_zone : ℕ
  vehicles : ℕ
  machines : ℕ
deriving DecidableEq, Repr

structure IndustrialOutput where
  worker_count : ℕ
  worker_trend : String
  workers_in_op_zone : ℕ
  vehicle_count : ℕ
  machine_count : ℕ
  ppe_verification_required : Bool
  risk : String
  alerts : List IndustrialAlert
  alert_count : ℕ
deriving DecidableEq, Repr

/-- `IndustrialAnalyzer.analyze(detections, frame_height)`. -/
def IndustrialAnalyzer.analyze (s : IndustrialState)
    (detections : List Detection) (frame_height : ℚ) :
    IndustrialOutput × IndustrialState :=
  let persons := detections.filter isPersonGet
  let vehicles := detections.filter isIndustrialVehicle
  let machines := detections.filter isMachine
  let worker_count := persons.length
  let vehicle_count := vehicles.length
  let machine_count := machines.length
  let h2 := pushHist s.maxlen s.worker_hist worker_count
  let trend := guardedTrend h2
  let workers_in_op_zone :=
    (persons.filter fun p => cyOf p > frame_height * s.op_zone_start).length
  let high_risk_context := 0 < vehicle_count + machine_count
  let ppe := 0 < workers_in_op_zone ∧ high_risk_context
  let risk := if ppe then "elevated" else "normal"
  let alerts : List IndustrialAlert :=
    if ppe then
      [{ type := "ppe_verification_required",
         message := "Worker(s) detected in operational area. PPE verification recommended.",
         workers_in_zone := workers_in_op_zone,
         vehicles := vehicle_count,
         machines := machine_count }]
    else []
  ({ worker_count := worker_count, worker_trend := trend,
     workers_in_op_zone := workers_in_op_zone,
     vehicle_count := vehicle_count, machine_count := machine_count,
     ppe_verification_required := ppe, risk := risk,
     alerts := alerts, alert_count := alerts.length },
   { s with worker_hist := h2 })

/-! ### LoiterAnalyzer (`loiter.py`)

The Python tracker stores tracks in a `dict[int, Track]`; insertion
order is significant (matching scans the dict in order), so the state
holds an insertion-ordered association list.  All distance comparisons
are carried out on squared distances (see the header comment). -/

structure Track where
  x : ℚ
  y : ℚ
  first_seen : ℚ
  last_seen : ℚ
  dwell_seconds : ℚ
deriving DecidableEq, Repr

structure LoiterState where
  loiter_seconds : ℚ
  match_radius_px : ℚ
  max_track_age_seconds : ℚ
  tracks : List (ℕ × Track)
  next_id : ℕ
deriving DecidableEq, Repr

/-- `LoiterAnalyzer.__init__(loiter_seconds=25.0, match_radius_px=60.0,
max_track_age_seconds=3.0)`. -/
def LoiterState.init (loiter_seconds : ℚ := 25) (match_radius_px : ℚ := 60)
    (max_track_age_seconds : ℚ := 3) : LoiterState :=
  { loiter_seconds := loiter_seconds, match_radius_px := match_radius_px,
    max_track_age_seconds := max_track_age_seconds,
    tracks := [], next_id := 1 }

structure LoiterOutput where
  enabled : Bool
  threshold_seconds : ℚ
  active_tracks : ℕ
  loiterers : List (ℕ × ℚ)
  loiter_count : ℕ
deriving DecidableEq, Repr

/-- `_centroid(bbox)`. -/
def centroid (b : ℚ × ℚ × ℚ × ℚ) : ℚ × ℚ :=
  ((b.1 + b.2.2.1) / 2, (b.2.1 + b.2.2.2) / 2)

/-- Squared Euclidean distance (`math.hypot(...)` squared). -/
def dist2 (a b : ℚ × ℚ) : ℚ :=
  (a.1 - b.1) ^ 2 + (a.2 - b.2) ^ 2

/-- The loiter person filter:
`d.get("class_name") == "person" and d.get("bbox") is not None`. -/
def isLoiterPerson (d : Detection) : Bool :=
  isPersonGet d && d.bbox.isSome

/-- Sentinel `1e9`, squared. -/
def BIG_DIST2 : ℚ := ((10 : ℚ) ^ 9) ^ 2

/-- One iteration of the inner best-match scan: skip tracks already in
`used`, keep the strictly closest track seen so far. -/
def bestStep (c : ℚ × ℚ) (used : List ℕ) (acc : Option ℕ × ℚ)
    (p : ℕ × Track) : Option ℕ × ℚ :=
  if p.1 ∈ used then acc
  else
    let d := dist2 (p.2.x, p.2.y) c
    if d < acc.2 then (some p.1, d) else acc

/-- The inner loop of the greedy matcher: best unused track for a
centroid, starting from `best_tid = None, best_dist = 1e9`. -/
def bestMatch (c : ℚ × ℚ) (used : List ℕ) (tracks : List (ℕ × Track)) :
    Option ℕ × ℚ :=
  tracks.foldl (bestStep c used) (none, BIG_DIST2)

/-- The `Track(x=c[0], y=c[1], first_seen=now, last_seen=now,
dwell_seconds=0.0)` constructed for an unmatched centroid. -/
def newTrack (c : ℚ × ℚ) (now : ℚ) : Track :=
  { x := c.1, y := c.2, first_seen := now, last_seen := now,
    dwell_seconds := 0 }

/-- The greedy matching loop of `LoiterAnalyzer.analyze`: each centroid
either matches its best unused track (when within the match radius) or
creates a fresh track, which is immediately marked used.  Returns the
updated `(tracks, next_id)` together with the assignment list. -/
def matchLoop (radius2 now : ℚ) :
    List (ℚ × ℚ) → List (ℕ × Track) → ℕ → List ℕ →
    List (ℕ × (ℚ × ℚ)) → (List (ℕ × Track) × ℕ) × List (ℕ × (ℚ × ℚ))
  | [], tracks, next_id, _, asg => ((tracks, next_id), asg)
  | c :: cs, tracks, next_id, used, asg =>
    let best := bestMatch c used tracks
    match best.1 with
    | some tid =>
        if best.2 ≤ radius2 then
          matchLoop radius2 now cs tracks next_id (tid :: used)
            (asg ++ [(tid, c)])
        else
          matchLoop radius2 now cs (tracks ++ [(next_id, newTrack c now)])
            (next_id + 1) (next_id :: used) (asg ++ [(next_id, c)])
    | none =>
        matchLoop radius2 now cs (tracks ++ [(next_id, newTrack c now)])
          (next_id + 1) (next_id :: used) (asg ++ [(next_id, c)])

/-- The per-assignment track update: forgiving-decay dwell accounting,
then move the track to the centroid and stamp `last_seen = now`.
`moved <= match_radius_px * 0.5` is compared squared. -/
def updateTrack (now radius2 : ℚ) (c : ℚ × ℚ) (tr : Track) : Track :=
  let dt := max 0 (now - tr.last_seen)
  let moved2 := dist2 (tr.x, tr.y) c
  let dwell :=
    if moved2 ≤ radius2 / 4 then tr.dwell_seconds + dt
    else max 0 (tr.dwell_seconds - dt)
  { tr with x := c.1, y := c.2, dwell_seconds := dwell, last_seen := now }

/-- The update loop `for tid, c in assignments: ...` (a keyed in-place
dict update). -/
def applyAssignments (now radius2 : ℚ) (tracks : List (ℕ × Track))
    (asg : List (ℕ × (ℚ × ℚ))) : List (ℕ × Track) :=
  asg.foldl
    (fun ts a =>
      ts.map fun p => if p.1 = a.1 then (p.1, updateTrack now radius2 a.2 p.2) else p)
    tracks

/-- Python `round(q, 1)`: round half to even at one decimal place. -/
def roundHalfEven (q : ℚ) : ℤ :=
  let f := ⌊q⌋
  let frac := q - f
  if frac < 1 / 2 then f
  else if 1 / 2 < frac then f + 1
  else if f % 2 = 0 then f else f + 1

def round1 (q : ℚ) : ℚ := (roundHalfEven (q * 10) : ℚ) / 10

/-- `LoiterAnalyzer.analyze(detections, now)` (with `now` always passed
explicitly; `time.time()` is outside the model). -/
def LoiterAnalyzer.analyze (s : LoiterState) (detections : List Detection)
    (now : ℚ) : LoiterOutput × LoiterState :=
  let persons := detections.filter isLoiterPerson
  let centroids := persons.map fun p => centroid (bboxOrZero p)
  let fresh := s.tracks.filter fun p =>
    ¬ (now - p.2.last_seen > s.max_track_age_seconds)
  let radius2 := s.match_radius_px ^ 2
  let m := matchLoop radius2 now centroids fresh s.next_id [] []
  let tracks2 := applyAssignments now radius2 m.1.1 m.2
  let loiterers := (tracks2.filter fun p => p.2.dwell_seconds ≥ s.loiter_seconds).map
    fun p => (p.1, round1 p.2.dwell_seconds)
  ({ enabled := true, threshold_seconds := s.loiter_seconds,
     active_tracks := tracks2.length, loiterers := loiterers,
     loiter_count := loiterers.length },
   { s with tracks := tracks2, next_id := m.1.2 })

/-- Well-formedness of the tracker state: the dict keys are distinct and
below the id counter (true of a fresh tracker and preserved by
`analyze`). -/
def LoiterState.wf (s : LoiterState) : Prop :=
  (s.tracks.map Prod.fst).Nodup ∧ ∀ p ∈ s.tracks, p.1 < s.next_id

/-- Fold a whole sequence of `analyze` calls over a tracker state. -/
def runCalls (s : LoiterState) : List (List Detection × ℚ) → LoiterState
  | [] => s
  | (dets, now) :: rest => runCalls (LoiterAnalyzer.analyze s dets now).2 rest

/-- The tracks created in order by the matching loop when no existing
track is available: ids `nid, nid+1, ...`, one per centroid. -/
def freshTracks (nid : ℕ) (now : ℚ) : List (ℚ × ℚ) → List (ℕ × Track)
  | [] => []
  | c :: cs => (nid, newTrack c now) :: freshTracks (nid + 1) now cs

/-- The corresponding assignment list. -/
def freshAsg (nid : ℕ) : List (ℚ × ℚ) → List (ℕ × (ℚ × ℚ))
  | [] => []
  | c :: cs => (nid, c) :: freshAsg (nid + 1) cs

/-- The position of a stored track. -/
def posOf (p : ℕ × Track) : ℚ × ℚ := (p.2.x, p.2.y)

/-- How many tracks not yet claimed by the greedy matcher sit exactly at
centroid `c`. -/
def availCount (tracks : List (ℕ × Track)) (used : List ℕ) (c : ℚ × ℚ) : ℕ :=
  (tracks.filter fun p => decide (p.1 ∉ used ∧ posOf p = c)).length

/-! ### Backend frame ingestion (`backend/src/main.py`) -/

/-- An event as stored by the backend: the JSON payload sent by the
inference node, of which only the keys the endpoint touches (`scene`,
`received_at`) are modelled explicitly; the rest is opaque. -/
structure Event where
  scene : Option String
  received_at : Option ℚ
  rest : String
deriving DecidableEq, Repr

structure BackendState where
  active_scene : String
  events : List Event
deriving DecidableEq, Repr

def MAX_EVENTS : ℕ := 500

/-- `POST /frame` (`receive_frame`): stamps `received_at`, overwrites
`scene` with the backend's active scene, appends, and pops the oldest
event when over `MAX_EVENTS`. -/
def receive_frame (payload : Event) (now : ℚ) (s : BackendState) :
    BackendState :=
  let p := { payload with received_at := some now, scene := some s.active_scene }
  let evs := s.events ++ [p]
  let evs2 := if MAX_EVENTS < evs.length then evs.drop 1 else evs
  { s with events := evs2 }

/-! ### Theorems -/

/-- C8: the highway risk is `elevated` iff, in the same call, a person
detection's vertical centroid lies below 60% of the frame height and the
vehicle count is positive; otherwise the risk is `normal`. -/
theorem highway_risk_elevated_iff (s : HighwayState) (dets : List Detection)
    (fh : ℚ) :
    ((HighwayAnalyzer.analyze s dets fh).1.risk = "elevated" ↔
      (HighwayAnalyzer.analyze s dets fh).1.pedestrian_in_roadway = true ∧
        0 < (HighwayAnalyzer.analyze s dets fh).1.vehicle_count) ∧
    ((HighwayAnalyzer.analyze s dets fh).1.risk = "elevated" ∨
      (HighwayAnalyzer.analyze s dets fh).1.risk = "normal") ∧
    ((HighwayAnalyzer.analyze s dets fh).1.pedestrian_in_roadway = true ↔
      ∃ d ∈ dets, isPersonGet d = true ∧ cyOf d > fh * (60 / 100)) := by
  simp only [HighwayAnalyzer.analyze]
  refine ⟨?_, ?_, ?_⟩
  · split
    · next hc => simpa using hc
    · next hc => simpa using hc
  · split
    · exact Or.inl rfl
    · exact Or.inr rfl
  · simp [List.any_eq_true, List.mem_filter, and_assoc]

/-- C9: `ppe_verification_required` holds exactly when some worker is in
the operational zone and the vehicle-plus-machine count is positive, and
then exactly one `ppe_verification_required` alert is emitted, else
none. -/
theorem industrial_ppe_alerts (s : IndustrialState) (dets : List Detection)
    (fh : ℚ) :
    (((IndustrialAnalyzer.analyze s dets fh).1.ppe_verification_required = true) ↔
      (0 < (IndustrialAnalyzer.analyze s dets fh).1.workers_in_op_zone ∧
        0 < (IndustrialAnalyzer.analyze s dets fh).1.vehicle_count +
              (IndustrialAnalyzer.analyze s dets fh).1.machine_count)) ∧
    (IndustrialAnalyzer.analyze s dets fh).1.alert_count =
      (if (IndustrialAnalyzer.analyze s dets fh).1.ppe_verification_required
        then 1 else 0) ∧
    (IndustrialAnalyzer.analyze s dets fh).1.alerts =
      (if (IndustrialAnalyzer.analyze s dets fh).1.ppe_verification_required
        then
          [{ type := "ppe_verification_required",
             message := "Worker(s) detected in operational area. PPE verification recommended.",
             workers_in_zone := (IndustrialAnalyzer.analyze s dets fh).1.workers_in_op_zone,
             vehicles := (IndustrialAnalyzer.analyze s dets fh).1.vehicle_count,
             machines := (IndustrialAnalyzer.analyze s dets fh).1.machine_count }]
        else []) := by
  simp only [IndustrialAnalyzer.analyze]
  refine ⟨by simp, ?_, ?_⟩
  · split
    · next hP => rw [if_pos (by simp only [decide_eq_true_eq]; exact hP)]; rfl
    · next hP => rw [if_neg (by simp only [decide_eq_true_eq]; exact hP)]; rfl
  · split
    · next hP => rw [if_pos (by simp only [decide_eq_true_eq]; exact hP)]
    · next hP => rw [if_neg (by simp only [decide_eq_true_eq]; exact hP)]

/-- Characterisation of the guarded trend block of `highway.py` and
`industrial.py`: both the `increasing` and the `decreasing` branch
require `earlier > 0`. -/
theorem guardedTrend_iff (h : List ℕ) (hlen : 6 ≤ h.length) :
    (guardedTrend h = "increasing" ↔
      avgEarlier h > 0 ∧ avgRecent h > avgEarlier h * (12 / 10)) ∧
    (guardedTrend h = "decreasing" ↔
      avgEarlier h > 0 ∧ avgRecent h < avgEarlier h * (8 / 10)) ∧
    (guardedTrend h = "stable" ↔
      ¬ (avgEarlier h > 0 ∧ avgRecent h > avgEarlier h * (12 / 10)) ∧
      ¬ (avgEarlier h > 0 ∧ avgRecent h < avgEarlier h * (8 / 10))) := by
  unfold guardedTrend
  rw [if_pos hlen]
  split
  · next h1 =>
    refine ⟨by simp [h1], ?_, ?_⟩
    · constructor
      · intro hs; exact absurd hs (by decide)
      · rintro ⟨he, hr⟩
        exact absurd hr (by linarith [h1.1, h1.2])
    · constructor
      · intro hs; exact absurd hs (by decide)
      · intro hns; exact absurd h1 hns.1
  · next h1 =>
    split
    · next h2 =>
      refine ⟨⟨fun hs => absurd hs (by decide), fun hp => absurd hp h1⟩,
              by simp [h2], ⟨fun hs => absurd hs (by decide), fun hns => absurd h2 hns.2⟩⟩
    · next h2 =>
      exact ⟨⟨fun hs => absurd hs (by decide), fun hp => absurd hp h1⟩,
             ⟨fun hs => absurd hs (by decide), fun hp => absurd hp h2⟩,
             ⟨fun _ => ⟨h1, h2⟩, fun _ => rfl⟩⟩

/-- C1 counterexample: with vehicle history `[0,0,0,1,1]` and one more
vehicle, `recent = 1 > 0 = earlier * 1.2`, yet `HighwayAnalyzer`
classifies the trend as `stable`, not `increasing`: the `increasing`
branch IS conditioned on `earlier > 0`. -/
theorem highway_trend_unguarded_claim_counterexample :
    6 ≤ (pushHist 30 [0, 0, 0, 1, 1] 1).length ∧
    avgRecent (pushHist 30 [0, 0, 0, 1, 1] 1) >
      avgEarlier (pushHist 30 [0, 0, 0, 1, 1] 1) * (12 / 10) ∧
    (HighwayAnalyzer.analyze ⟨30, [0, 0, 0, 1, 1]⟩
        [⟨some "car", some (0, 0, 10, 10)⟩] 100).1.trend ≠ "increasing" ∧
    (HighwayAnalyzer.analyze ⟨30, [0, 0, 0, 1, 1]⟩
        [⟨some "car", some (0, 0, 10, 10)⟩] 100).1.trend = "stable" := by
  refine ⟨by norm_num [pushHist], by norm_num [pushHist, avgRecent, avgEarlier],
    ?_, ?_⟩ <;>
    · norm_num [HighwayAnalyzer.analyze, guardedTrend, pushHist, avgRecent,
        avgEarlier, isVehicle, VEHICLE_CLASSES]
      try decide

/-- C1 (amended): for both `HighwayAnalyzer` (vehicle counts) and
`IndustrialAnalyzer` (worker counts), with at least 6 recorded samples
the trend is `increasing` iff `earlier > 0` AND `recent > earlier * 1.2`,
`decreasing` iff `earlier > 0` AND `recent < earlier * 0.8`, and
`stable` otherwise: the `increasing` branch, too, is conditioned on
`earlier > 0`. -/
theorem trend_increase_guarded_amended :
    (∀ (s : HighwayState) (dets : List Detection) (fh : ℚ),
      6 ≤ (pushHist s.maxlen s.history (dets.filter isVehicle).length).length →
      ((HighwayAnalyzer.analyze s dets fh).1.trend = "increasing" ↔
        avgEarlier (pushHist s.maxlen s.history (dets.filter isVehicle).length) > 0 ∧
        avgRecent (pushHist s.maxlen s.history (dets.filter isVehicle).length) >
          avgEarlier (pushHist s.maxlen s.history (dets.filter isVehicle).length) * (12 / 10)) ∧
      ((HighwayAnalyzer.analyze s dets fh).1.trend = "decreasing" ↔
        avgEarlier (pushHist s.maxlen s.history (dets.filter isVehicle).length) > 0 ∧
        avgRecent (pushHist s.maxlen s.history (dets.filter isVehicle).length) <
          avgEarlier (pushHist s.maxlen s.history (dets.filter isVehicle).length) * (8 / 10)) ∧
      ((HighwayAnalyzer.analyze s dets fh).1.trend = "stable" ↔
        ¬ (avgEarlier (pushHist s.maxlen s.history (dets.filter isVehicle).length) > 0 ∧
           avgRecent (pushHist s.maxlen s.history (dets.filter isVehicle).length) >
             avgEarlier (pushHist s.maxlen s.history (dets.filter isVehicle).length) * (12 / 10)) ∧
        ¬ (avgEarlier (pushHist s.maxlen s.history (dets.filter isVehicle).length) > 0 ∧
           avgRecent (pushHist s.maxlen s.history (dets.filter isVehicle).length) <
             avgEarlier (pushHist s.maxlen s.history (dets.filter isVehicle).length) * (8 / 10)))) ∧
    (∀ (s : IndustrialState) (dets : List Detection) (fh : ℚ),
      6 ≤ (pushHist s.maxlen s.worker_hist (dets.filter isPersonGet).length).length →
      ((IndustrialAnalyzer.analyze s dets fh).1.worker_trend = "increasing" ↔
        avgEarlier (pushHist s.maxlen s.worker_hist (dets.filter isPersonGet).length) > 0 ∧
        avgRecent (pushHist s.maxlen s.worker_hist (dets.filter isPersonGet).length) >
          avgEarlier (pushHist s.maxlen s.worker_hist (dets.filter isPersonGet).length) * (12 / 10)) ∧
      ((IndustrialAnalyzer.analyze s dets fh).1.worker_trend = "decreasing" ↔
        avgEarlier (pushHist s.maxlen s.worker_hist (dets.filter isPersonGet).length) > 0 ∧
        avgRecent (pushHist s.maxlen s.worker_hist (dets.filter isPersonGet).length) <
          avgEarlier (pushHist s.maxlen s.worker_hist (dets.filter isPersonGet).length) * (8 / 10)) ∧
      ((IndustrialAnalyzer.analyze s dets fh).1.worker_trend = "stable" ↔
        ¬ (avgEarlier (pushHist s.maxlen s.worker_hist (dets.filter isPersonGet).length) > 0 ∧
           avgRecent (pushHist s.maxlen s.worker_hist (dets.filter isPersonGet).length) >
             avgEarlier (pushHist s.maxlen s.worker_hist (dets.filter isPersonGet).length) * (12 / 10)) ∧
        ¬ (avgEarlier (pushHist s.maxlen s.worker_hist (dets.filter isPersonGet).length) > 0 ∧
           avgRecent (pushHist s.maxlen s.worker_hist (dets.filter isPersonGet).length) <
             avgEarlier (pushHist s.maxlen s.worker_hist (dets.filter isPersonGet).length) * (8 / 10)))) := by
  constructor
  · intro s dets fh hlen
    have : (HighwayAnalyzer.analyze s dets fh).1.trend =
        guardedTrend (pushHist s.maxlen s.history (dets.filter isVehicle).length) := rfl
    rw [this]
    exact guardedTrend_iff _ hlen
  · intro s dets fh hlen
    have : (IndustrialAnalyzer.analyze s dets fh).1.worker_trend =
        guardedTrend (pushHist s.maxlen s.worker_hist (dets.filter isPersonGet).length) := rfl
    rw [this]
    exact guardedTrend_iff _ hlen

/-- Witness for the amended C1: a concrete history where `earlier = 3 > 0`
and `recent = 19/3 > 3 * 1.2`, classified `increasing`. -/
theorem trend_increase_guarded_amended_witness :
    (HighwayAnalyzer.analyze ⟨30, [3, 3, 3, 9, 9]⟩
      [⟨some "car", some (0, 0, 10, 10)⟩] 100).1.trend = "increasing" :=
  (trend_increase_guarded_amended.1 ⟨30, [3, 3, 3, 9, 9]⟩
    [⟨some "car", some (0, 0, 10, 10)⟩] 100 (by decide)).1.mpr
    (by norm_num [pushHist, avgRecent, avgEarlier, isVehicle, VEHICLE_CLASSES])

/-- C2 counterexample: with an existing history `[10,10,10,20,20,20]`
(6 samples, last-3 mean 20 > 1.2 × prior-3 mean 10) and a call seeing 0
persons, `CrowdAnalyzer.analyze` returns trend `stable`, not
`increasing`: classification is skipped entirely when `count < 3`. -/
theorem crowd_lowcount_trend_counterexample :
    (CrowdAnalyzer.analyze ⟨30, [10, 10, 10, 20, 20, 20]⟩ [] 1000).map
        (fun p => (p.1.trend, p.1.count)) = some ("stable", 0) ∧
    avgRecent [10, 10, 10, 20, 20, 20] >
      avgEarlier [10, 10, 10, 20, 20, 20] * (12 / 10) ∧
    (CrowdAnalyzer.analyze ⟨30, [10, 10, 10, 20, 20, 20]⟩ [] 1000).map
        (fun p => p.1.trend) ≠ some "increasing" := by
  refine ⟨?_, by norm_num [avgRecent, avgEarlier], ?_⟩ <;>
    · norm_num [CrowdAnalyzer.analyze, personsSubscript, crowdZones]
      try decide

/-- C2 (amended): when the person count is below 3 the count is indeed
not recorded into the history, but trend classification is skipped as
well: the returned trend is unconditionally `stable`, whatever history
already exists. -/
theorem crowd_lowcount_skips_trend (dets : List Detection) (w : ℚ)
    (s : CrowdState) (out : CrowdOutput) (s2 : CrowdState)
    (heq : CrowdAnalyzer.analyze s dets w = some (out, s2))
    (hc : out.count < 3) : out.trend = "stable" ∧ s2.history = s.history := by
  unfold CrowdAnalyzer.analyze at heq
  cases hp : personsSubscript dets with
  | none => rw [hp] at heq; simp at heq
  | some persons =>
    rw [hp] at heq
    simp only [Option.bind_eq_bind, Option.some_bind] at heq
    cases hz : crowdZones w persons with
    | none => rw [hz] at heq; simp at heq
    | some z =>
      rw [hz] at heq
      simp only [Option.bind_eq_bind, Option.some_bind] at heq
      by_cases h3 : 3 ≤ persons.length
      · by_cases hw : w / 1000 = 0
        · rw [if_pos hw, show (failure : Option PUnit) = none from rfl] at heq
          simp at heq
        · rw [if_neg hw] at heq
          simp only [Option.bind_eq_bind, Option.some_bind, Option.pure_def] at heq
          rw [if_pos h3] at heq
          simp at heq
          rw [← heq.1] at hc
          simp at hc
          omega
      · by_cases hw : w / 1000 = 0
        · rw [if_pos hw, show (failure : Option PUnit) = none from rfl] at heq
          simp at heq
        · rw [if_neg hw] at heq
          simp only [Option.bind_eq_bind, Option.some_bind, Option.pure_def] at heq
          rw [if_neg h3] at heq
          simp at heq
          obtain ⟨ho, hs⟩ := heq
          subst ho
          subst hs
          exact ⟨rfl, rfl⟩

/-- Witness for the amended C2: a call with 0 persons on a history of 6
large samples leaves the history unchanged and reports `stable`. -/
theorem crowd_lowcount_skips_trend_witness :
    ({ count := 0, density := "low", trend := "stable", zones_left := 0,
       zones_center := 0, zones_right := 0 } : CrowdOutput).trend = "stable" ∧
    (⟨30, [10, 10, 10, 20, 20, 20]⟩ : CrowdState).history =
      (⟨30, [10, 10, 10, 20, 20, 20]⟩ : CrowdState).history :=
  crowd_lowcount_skips_trend [] 1000 ⟨30, [10, 10, 10, 20, 20, 20]⟩
    { count := 0, density := "low", trend := "stable", zones_left := 0,
      zones_center := 0, zones_right := 0 }
    ⟨30, [10, 10, 10, 20, 20, 20]⟩
    (by norm_num [CrowdAnalyzer.analyze, personsSubscript, crowdZones])
    (by norm_num)

/-- In `crowd.py` the person filter uses subscript access, so one
detection without a `class_name` key makes the whole filter raise. -/
theorem personsSubscript_eq_none {dets : List Detection}
    (h : ∃ d ∈ dets, d.class_name = none) : personsSubscript dets = none := by
  induction dets with
  | nil => simp at h
  | cons d ds ih =>
    rcases h with ⟨e, he, hcn⟩
    rcases List.mem_cons.mp he with rfl | hmem
    · simp [personsSubscript, hcn]
    · unfold personsSubscript
      rw [ih ⟨e, hmem, hcn⟩]
      cases d.class_name <;> rfl

/-- C3 counterexample: a single detection with no `class_name` makes
`CrowdAnalyzer.analyze` raise (`KeyError` on `d["class_name"]`), so not
every analyzer tolerates detections with missing fields. -/
theorem crowd_missing_class_name_counterexample :
    CrowdAnalyzer.analyze CrowdState.init
      [{ class_name := none, bbox := none }] 1000 = none := by
  norm_num [CrowdAnalyzer.analyze, personsSubscript, CrowdState.init]

/-- C3 (amended): the `.get`-based analyzers (highway, industrial,
loiter) exclude a detection lacking `class_name` from every class
filter, and the loiter person filter also excludes a detection lacking
`bbox`; `CrowdAnalyzer.analyze`, however, uses subscript access and
raises when any detection lacks `class_name`. -/
theorem missing_fields_handling :
    (∀ d : Detection, d.class_name = none →
      isVehicle d = false ∧ isPersonGet d = false ∧
      isIndustrialVehicle d = false ∧ isMachine d = false ∧
      isLoiterPerson d = false) ∧
    (∀ d : Detection, d.bbox = none → isLoiterPerson d = false) ∧
    (∀ (dets : List Detection) (w : ℚ) (s : CrowdState),
      (∃ d ∈ dets, d.class_name = none) →
      CrowdAnalyzer.analyze s dets w = none) := by
  refine ⟨?_, ?_, ?_⟩
  · intro d h
    simp [isVehicle, isPersonGet, isIndustrialVehicle, isMachine,
      isLoiterPerson, h]
  · intro d h
    simp [isLoiterPerson, h]
  · intro dets w s h
    unfold CrowdAnalyzer.analyze
    rw [personsSubscript_eq_none h]
    rfl

/-- Witness for the amended C3: a class-less detection is no vehicle and
aborts the crowd analyzer. -/
theorem missing_fields_handling_witness :
    isVehicle { class_name := none, bbox := some (0, 0, 1, 1) } = false ∧
    CrowdAnalyzer.analyze ⟨30, [4]⟩
      [{ class_name := none, bbox := some (0, 0, 1, 1) }] 500 = none :=
  ⟨(missing_fields_handling.1 _ rfl).1,
   missing_fields_handling.2.2 _ 500 ⟨30, [4]⟩
     ⟨{ class_name := none, bbox := some (0, 0, 1, 1) }, by simp, rfl⟩⟩

/-- C10: whatever `scene` the inference node put in the payload, the
event stored by `POST /frame` carries the backend's active scene (and a
fresh `received_at`). -/
theorem receive_frame_overwrites_scene (payload : Event) (now : ℚ)
    (s : BackendState) :
    (receive_frame payload now s).events.getLast? =
      some { payload with received_at := some now,
                          scene := some s.active_scene } := by
  unfold receive_frame
  simp only
  split
  · next hlen =>
    match hev : s.events with
    | [] => simp [hev, MAX_EVENTS] at hlen
    | x :: xs => simp [List.getLast?_concat]
  · exact List.getLast?_concat _

/-! #### Loiter tracker: dwell nonnegativity (C5) -/

theorem updateTrack_dwell_nonneg (now r2 : ℚ) (c : ℚ × ℚ) (tr : Track)
    (h : 0 ≤ tr.dwell_seconds) : 0 ≤ (updateTrack now r2 c tr).dwell_seconds := by
  unfold updateTrack
  dsimp only
  split
  · exact add_nonneg h (le_max_left 0 _)
  · exact le_max_left 0 _

theorem applyAssignments_dwell (now r2 : ℚ) (asg : List (ℕ × (ℚ × ℚ))) :
    ∀ (tracks : List (ℕ × Track)), (∀ p ∈ tracks, 0 ≤ p.2.dwell_seconds) →
      ∀ p ∈ applyAssignments now r2 tracks asg, 0 ≤ p.2.dwell_seconds := by
  induction asg with
  | nil => intro tracks h; simpa [applyAssignments] using h
  | cons a asg ih =>
    intro tracks h
    have hstep : applyAssignments now r2 tracks (a :: asg) =
        applyAssignments now r2
          (tracks.map fun p =>
            if p.1 = a.1 then (p.1, updateTrack now r2 a.2 p.2) else p) asg := rfl
    rw [hstep]
    apply ih
    intro p hp
    rcases List.mem_map.mp hp with ⟨q, hq, rfl⟩
    by_cases hk : q.1 = a.1
    · rw [if_pos hk]
      exact updateTrack_dwell_nonneg now r2 a.2 q.2 (h q hq)
    · rw [if_neg hk]
      exact h q hq

theorem matchLoop_dwell (r2 now : ℚ) :
    ∀ (cs : List (ℚ × ℚ)) (tracks : List (ℕ × Track)) (nid : ℕ)
      (used : List ℕ) (asg : List (ℕ × (ℚ × ℚ))),
      (∀ p ∈ tracks, 0 ≤ p.2.dwell_seconds) →
      ∀ p ∈ (matchLoop r2 now cs tracks nid used asg).1.1,
        0 ≤ p.2.dwell_seconds := by
  intro cs
  induction cs with
  | nil => intro tracks nid used asg h; simpa [matchLoop] using h
  | cons c cs ih =>
    intro tracks nid used asg h
    rw [matchLoop]
    have hnew : ∀ p ∈ tracks ++ [(nid, newTrack c now)],
        0 ≤ p.2.dwell_seconds := by
      intro p hp
      rcases List.mem_append.mp hp with hp | hp
      · exact h p hp
      · rcases List.mem_singleton.mp hp with rfl
        exact le_refl 0
    split
    · split
      · exact ih tracks nid _ _ h
      · exact ih _ (nid + 1) _ _ hnew
    · exact ih _ (nid + 1) _ _ hnew

theorem analyze_dwell_nonneg (s : LoiterState) (dets : List Detection)
    (now : ℚ) (h : ∀ p ∈ s.tracks, 0 ≤ p.2.dwell_seconds) :
    ∀ p ∈ (LoiterAnalyzer.analyze s dets now).2.tracks,
      0 ≤ p.2.dwell_seconds := by
  intro p hp
  simp only [LoiterAnalyzer.analyze] at hp
  have hfresh : ∀ q ∈ s.tracks.filter
      (fun p => ¬ (now - p.2.last_seen > s.max_track_age_seconds)),
      0 ≤ q.2.dwell_seconds :=
    fun q hq => h q (List.mem_filter.mp hq).1
  exact applyAssignments_dwell now (s.match_radius_px ^ 2) _ _
    (matchLoop_dwell _ _ _ _ _ _ _ hfresh) p hp

/-- C5: across every sequence of `analyze` calls on a fresh tracker (any
configuration), every track's `dwell_seconds` stays ≥ 0: the forgiving
decay clamps at zero. -/
theorem loiter_dwell_always_nonneg (ls rad age : ℚ)
    (calls : List (List Detection × ℚ)) :
    ((runCalls (LoiterState.init ls rad age) calls).tracks.all
      fun p => 0 ≤ p.2.dwell_seconds) = true := by
  rw [List.all_eq_true]
  have main : ∀ (calls : List (List Detection × ℚ)) (s : LoiterState),
      (∀ p ∈ s.tracks, 0 ≤ p.2.dwell_seconds) →
      ∀ p ∈ (runCalls s calls).tracks, 0 ≤ p.2.dwell_seconds := by
    intro calls
    induction calls with
    | nil => intro s h; simpa [runCalls] using h
    | cons c rest ih =>
      intro s h
      obtain ⟨dets, now⟩ := c
      exact ih _ (analyze_dwell_nonneg s dets now h)
  intro p hp
  exact decide_eq_true (main calls _ (by simp [LoiterState.init]) p hp)

/-! #### Loiter tracker: track-key bookkeeping (C6, C7) -/

theorem assoc_key_unique {α : Type} {tracks : List (ℕ × α)}
    (hnd : (tracks.map Prod.fst).Nodup) {k : ℕ} {v w : α}
    (h1 : (k, v) ∈ tracks) (h2 : (k, w) ∈ tracks) : v = w := by
  induction tracks with
  | nil => cases h1
  | cons q ts ih =>
    rw [List.map_cons] at hnd
    have hhead := (List.nodup_cons.mp hnd).1
    have htail := (List.nodup_cons.mp hnd).2
    rcases List.mem_cons.mp h1 with h1' | h1'
    · rcases List.mem_cons.mp h2 with h2' | h2'
      · rw [← h1'] at h2'
        injection h2' with _ hw
        exact hw.symm
      · exfalso
        apply hhead
        rw [← h1']
        exact List.mem_map.mpr ⟨(k, w), h2', rfl⟩
    · rcases List.mem_cons.mp h2 with h2' | h2'
      · exfalso
        apply hhead
        rw [← h2']
        exact List.mem_map.mpr ⟨(k, v), h1', rfl⟩
      · exact ih htail h1' h2'

theorem applyAssignments_map_fst (now r2 : ℚ) (asg : List (ℕ × (ℚ × ℚ))) :
    ∀ tracks : List (ℕ × Track),
      (applyAssignments now r2 tracks asg).map Prod.fst =
        tracks.map Prod.fst := by
  induction asg with
  | nil => intro tracks; rfl
  | cons a asg ih =>
    intro tracks
    have hstep : applyAssignments now r2 tracks (a :: asg) =
        applyAssignments now r2
          (tracks.map fun p =>
            if p.1 = a.1 then (p.1, updateTrack now r2 a.2 p.2) else p) asg := rfl
    rw [hstep, ih, List.map_map]
    apply List.map_congr_left
    intro p _
    by_cases hk : p.1 = a.1 <;> simp [hk]

theorem matchLoop_next_id_mono (r2 now : ℚ) :
    ∀ (cs : List (ℚ × ℚ)) (tracks : List (ℕ × Track)) (nid : ℕ)
      (used : List ℕ) (asg : List (ℕ × (ℚ × ℚ))),
      nid ≤ (matchLoop r2 now cs tracks nid used asg).1.2 := by
  intro cs
  induction cs with
  | nil => intro tracks nid used asg; exact le_refl nid
  | cons c cs ih =>
    intro tracks nid used asg
    rw [matchLoop]
    split
    · split
      · exact ih tracks nid _ _
      · exact le_trans (Nat.le_succ nid) (ih _ (nid + 1) _ _)
    · exact le_trans (Nat.le_succ nid) (ih _ (nid + 1) _ _)

theorem matchLoop_track_origin (r2 now : ℚ) :
    ∀ (cs : List (ℚ × ℚ)) (tracks : List (ℕ × Track)) (nid : ℕ)
      (used : List ℕ) (asg : List (ℕ × (ℚ × ℚ))),
      ∀ p ∈ (matchLoop r2 now cs tracks nid used asg).1.1,
        p ∈ tracks ∨ nid ≤ p.1 := by
  intro cs
  induction cs with
  | nil => intro tracks nid used asg p hp; exact Or.inl hp
  | cons c cs ih =>
    intro tracks nid used asg p hp
    rw [matchLoop] at hp
    have hnew : ∀ q ∈ (matchLoop r2 now cs
        (tracks ++ [(nid, newTrack c now)])
        (nid + 1) (nid :: used) (asg ++ [(nid, c)])).1.1,
        q ∈ tracks ∨ nid ≤ q.1 := by
      intro q hq
      rcases ih _ (nid + 1) _ _ q hq with hq' | hq'
      · rcases List.mem_append.mp hq' with h | h
        · exact Or.inl h
        · rcases List.mem_singleton.mp h with rfl
          exact Or.inr (le_refl nid)
      · exact Or.inr (le_trans (Nat.le_succ nid) hq')
    split at hp
    · split at hp
      · exact ih tracks nid _ _ p hp
      · exact hnew p hp
    · exact hnew p hp

theorem matchLoop_wf (r2 now : ℚ) :
    ∀ (cs : List (ℚ × ℚ)) (tracks : List (ℕ × Track)) (nid : ℕ)
      (used : List ℕ) (asg : List (ℕ × (ℚ × ℚ))),
      (∀ p ∈ tracks, p.1 < nid) → (tracks.map Prod.fst).Nodup →
      (∀ p ∈ (matchLoop r2 now cs tracks nid used asg).1.1,
          p.1 < (matchLoop r2 now cs tracks nid used asg).1.2) ∧
      ((matchLoop r2 now cs tracks nid used asg).1.1.map Prod.fst).Nodup := by
  intro cs
  induction cs with
  | nil =>
    intro tracks nid used asg hlt hnd
    exact ⟨fun p hp => hlt p hp, hnd⟩
  | cons c cs ih =>
    intro tracks nid used asg hlt hnd
    rw [matchLoop]
    have hlt' : ∀ p ∈ tracks ++ [(nid, newTrack c now)], p.1 < nid + 1 := by
      intro p hp
      rcases List.mem_append.mp hp with h | h
      · exact Nat.lt_succ_of_lt (hlt p h)
      · rcases List.mem_singleton.mp h with rfl
        exact Nat.lt_succ_self nid
    have hnd' : ((tracks ++ [(nid, newTrack c now)]).map Prod.fst).Nodup := by
      rw [List.map_append, List.nodup_append]
      refine ⟨hnd, List.nodup_singleton _, ?_⟩
      intro a ha
      rcases List.mem_map.mp ha with ⟨p, hp, rfl⟩
      simp only [List.map_cons, List.map_nil, List.mem_singleton]
      exact fun h => absurd (h ▸ hlt p hp) (lt_irrefl nid)
    split
    · split
      · exact ih tracks nid _ _ hlt hnd
      · exact ih _ (nid + 1) _ _ hlt' hnd'
    · exact ih _ (nid + 1) _ _ hlt' hnd'

theorem applyAssignments_key_origin (now r2 : ℚ) (asg : List (ℕ × (ℚ × ℚ)))
    (tracks : List (ℕ × Track)) :
    ∀ p ∈ applyAssignments now r2 tracks asg, ∃ q ∈ tracks, q.1 = p.1 := by
  intro p hp
  have hkey : p.1 ∈ (applyAssignments now r2 tracks asg).map Prod.fst :=
    List.mem_map.mpr ⟨p, hp, rfl⟩
  rw [applyAssignments_map_fst] at hkey
  rcases List.mem_map.mp hkey with ⟨q, hq, hqk⟩
  exact ⟨q, hq, hqk⟩

/-- Every key in the post-`analyze` track dict either comes from a
surviving (non-stale) pre-call track or is a freshly allocated id. -/
theorem analyze_track_key_origin (s : LoiterState) (dets : List Detection)
    (now : ℚ) :
    ∀ p ∈ (LoiterAnalyzer.analyze s dets now).2.tracks,
      (∃ q ∈ s.tracks.filter
          (fun t => ¬ (now - t.2.last_seen > s.max_track_age_seconds)),
        q.1 = p.1) ∨ s.next_id ≤ p.1 := by
  intro p hp
  simp only [LoiterAnalyzer.analyze] at hp
  rcases applyAssignments_key_origin _ _ _ _ p hp with ⟨q, hq, hqk⟩
  rcases matchLoop_track_origin _ _ _ _ _ _ _ q hq with h | h
  · exact Or.inl ⟨q, h, hqk⟩
  · exact Or.inr (hqk ▸ h)

/-- C6: a track whose elapsed time since `last_seen` strictly exceeds
`max_track_age_seconds` at the start of an `analyze` call is evicted
before matching: its id appears neither among the surviving tracks
(counted by `active_tracks`) nor among the reported `loiterers`. -/
theorem stale_track_absent (s : LoiterState) (dets : List Detection)
    (now : ℚ) (tid : ℕ) (tr : Track) (hwf : s.wf)
    (hmem : (tid, tr) ∈ s.tracks)
    (hstale : now - tr.last_seen > s.max_track_age_seconds) :
    (∀ p ∈ (LoiterAnalyzer.analyze s dets now).2.tracks, p.1 ≠ tid) ∧
    (∀ q ∈ (LoiterAnalyzer.analyze s dets now).1.loiterers, q.1 ≠ tid) := by
  obtain ⟨hnd, hlt⟩ := hwf
  have hfreshne : ∀ q ∈ s.tracks.filter
      (fun t => ¬ (now - t.2.last_seen > s.max_track_age_seconds)),
      q.1 ≠ tid := by
    intro q hq heq
    have hmem' := List.mem_filter.mp hq
    have hq2 : (tid, q.2) ∈ s.tracks := by
      rw [← heq]
      exact hmem'.1
    have hqtr : q.2 = tr := assoc_key_unique hnd hq2 hmem
    have hcond := of_decide_eq_true hmem'.2
    rw [hqtr] at hcond
    exact hcond hstale
  have hmain : ∀ p ∈ (LoiterAnalyzer.analyze s dets now).2.tracks,
      p.1 ≠ tid := by
    intro p hp heq
    rcases analyze_track_key_origin s dets now p hp with ⟨q, hq, hqk⟩ | h
    · exact hfreshne q hq (by rw [hqk, heq])
    · have := hlt _ hmem
      omega
  refine ⟨hmain, ?_⟩
  intro q hq
  have hq' : q ∈ ((LoiterAnalyzer.analyze s dets now).2.tracks.filter
      (fun p => p.2.dwell_seconds ≥ s.loiter_seconds)).map
      (fun p => (p.1, round1 p.2.dwell_seconds)) := hq
  rcases List.mem_map.mp hq' with ⟨p, hpf, rfl⟩
  exact hmain p (List.mem_filter.mp hpf).1

/-- C7: track ids stay unique and below the monotonically increasing id
counter; a surviving track keeps the id it already had, and every other
live id is freshly allocated at or above the pre-call counter, so ids of
evicted tracks are never reused. -/
theorem track_identity_invariants (s : LoiterState) (dets : List Detection)
    (now : ℚ) (hwf : s.wf) :
    (LoiterAnalyzer.analyze s dets now).2.wf ∧
    s.next_id ≤ (LoiterAnalyzer.analyze s dets now).2.next_id ∧
    ∀ p ∈ (LoiterAnalyzer.analyze s dets now).2.tracks,
      (∃ tr0, (p.1, tr0) ∈ s.tracks) ∨ s.next_id ≤ p.1 := by
  obtain ⟨hnd, hlt⟩ := hwf
  have hfresh_sub : ∀ q ∈ s.tracks.filter
      (fun t => ¬ (now - t.2.last_seen > s.max_track_age_seconds)),
      q ∈ s.tracks := fun q hq => (List.mem_filter.mp hq).1
  have hfresh_nd : ((s.tracks.filter
      (fun t => ¬ (now - t.2.last_seen > s.max_track_age_seconds))).map
        Prod.fst).Nodup :=
    hnd.sublist ((List.filter_sublist _).map Prod.fst)
  have hfresh_lt : ∀ q ∈ s.tracks.filter
      (fun t => ¬ (now - t.2.last_seen > s.max_track_age_seconds)),
      q.1 < s.next_id := fun q hq => hlt _ (hfresh_sub q hq)
  obtain ⟨hm_lt, hm_nd⟩ := matchLoop_wf (s.match_radius_px ^ 2) now
    ((dets.filter isLoiterPerson).map fun p => centroid (bboxOrZero p))
    _ s.next_id [] [] hfresh_lt hfresh_nd
  refine ⟨⟨?_, ?_⟩, ?_, ?_⟩
  · show (((LoiterAnalyzer.analyze s dets now).2.tracks).map Prod.fst).Nodup
    simp only [LoiterAnalyzer.analyze]
    rw [applyAssignments_map_fst]
    exact hm_nd
  · intro p hp
    simp only [LoiterAnalyzer.analyze] at hp ⊢
    rcases applyAssignments_key_origin _ _ _ _ p hp with ⟨q, hq, hqk⟩
    rw [← hqk]
    exact hm_lt q hq
  · simp only [LoiterAnalyzer.analyze]
    exact matchLoop_next_id_mono _ _ _ _ _ _ _
  · intro p hp
    rcases analyze_track_key_origin s dets now p hp with ⟨q, hq, hqk⟩ | h
    · refine Or.inl ⟨q.2, ?_⟩
      rw [← hqk]
      exact hfresh_sub q hq
    · exact Or.inr h

/-- Witness for C6, at a concrete stale state: the track with id 1, last
seen at time 0, is gone from the call at time 10 (age 10 > 3). -/
theorem stale_track_absent_witness :
    (∀ p ∈ (LoiterAnalyzer.analyze
        ⟨25, 60, 3, [(1, ⟨0, 0, 0, 0, 0⟩)], 2⟩ [] 10).2.tracks, p.1 ≠ 1) ∧
    (∀ q ∈ (LoiterAnalyzer.analyze
        ⟨25, 60, 3, [(1, ⟨0, 0, 0, 0, 0⟩)], 2⟩ [] 10).1.loiterers,
      q.1 ≠ 1) :=
  stale_track_absent ⟨25, 60, 3, [(1, ⟨0, 0, 0, 0, 0⟩)], 2⟩ [] 10 1
    ⟨0, 0, 0, 0, 0⟩ ⟨by simp, by simp⟩ (by simp) (by norm_num)

/-- Witness for C7, applying the invariant theorem to a fresh tracker. -/
theorem track_identity_invariants_witness :
    (LoiterAnalyzer.analyze LoiterState.init [] 0).2.wf ∧
    LoiterState.init.next_id ≤
      (LoiterAnalyzer.analyze LoiterState.init [] 0).2.next_id ∧
    ∀ p ∈ (LoiterAnalyzer.analyze LoiterState.init [] 0).2.tracks,
      (∃ tr0, (p.1, tr0) ∈ LoiterState.init.tracks) ∨
        LoiterState.init.next_id ≤ p.1 :=
  track_identity_invariants LoiterState.init [] 0
    ⟨by simp [LoiterState.init], by simp [LoiterState.init]⟩

/-! #### Idempotence on a fresh engine (C4) -/

theorem pushHist_length_le (m : ℕ) (h : List ℕ) (x : ℕ) :
    (pushHist m h x).length ≤ h.length + 1 := by
  unfold pushHist
  dsimp only
  split
  · rw [List.length_drop]
    simp
  · simp

theorem guardedTrend_short {h : List ℕ} (hlen : h.length < 6) :
    guardedTrend h = "stable" := by
  unfold guardedTrend
  rw [if_neg]
  omega

theorem crowd_post_history (dets : List Detection) (w : ℚ) (s : CrowdState)
    (out : CrowdOutput) (s2 : CrowdState)
    (heq : CrowdAnalyzer.analyze s dets w = some (out, s2)) :
    s2.maxlen = s.maxlen ∧ s2.history.length ≤ s.history.length + 1 := by
  unfold CrowdAnalyzer.analyze at heq
  cases hp : personsSubscript dets with
  | none => rw [hp] at heq; simp at heq
  | some persons =>
    rw [hp] at heq
    simp only [Option.bind_eq_bind, Option.some_bind] at heq
    cases hz : crowdZones w persons with
    | none => rw [hz] at heq; simp at heq
    | some z =>
      rw [hz] at heq
      simp only [Option.bind_eq_bind, Option.some_bind] at heq
      by_cases hw : w / 1000 = 0
      · rw [if_pos hw, show (failure : Option PUnit) = none from rfl] at heq
        simp at heq
      · rw [if_neg hw] at heq
        simp only [Option.bind_eq_bind, Option.some_bind, Option.pure_def] at heq
        by_cases h3 : 3 ≤ persons.length
        · rw [if_pos h3] at heq
          simp at heq
          obtain ⟨-, hs⟩ := heq
          subst hs
          refine ⟨rfl, ?_⟩
          have hle := pushHist_length_le s.maxlen s.history persons.length
          repeat' split
          all_goals simpa using hle
        · rw [if_neg h3] at heq
          simp at heq
          obtain ⟨-, hs⟩ := heq
          subst hs
          exact ⟨rfl, Nat.le_succ _⟩

theorem crowd_out_hist_invariant (dets : List Detection) (w : ℚ)
    (s t : CrowdState) (hs : s.history.length ≤ 4)
    (ht : t.history.length ≤ 4) :
    (CrowdAnalyzer.analyze s dets w).map Prod.fst =
      (CrowdAnalyzer.analyze t dets w).map Prod.fst := by
  unfold CrowdAnalyzer.analyze
  cases hp : personsSubscript dets with
  | none => rfl
  | some persons =>
    simp only [Option.bind_eq_bind, Option.some_bind]
    cases hz : crowdZones w persons with
    | none => rfl
    | some z =>
      simp only [Option.bind_eq_bind, Option.some_bind]
      by_cases hw : w / 1000 = 0
      · rw [if_pos hw, if_pos hw]
        rfl
      · rw [if_neg hw, if_neg hw]
        simp only [Option.bind_eq_bind, Option.some_bind, Option.pure_def]
        by_cases h3 : 3 ≤ persons.length
        · rw [if_pos h3, if_pos h3]
          have hs6 : ¬ 6 ≤ (pushHist s.maxlen s.history persons.length).length := by
            have := pushHist_length_le s.maxlen s.history persons.length
            omega
          have ht6 : ¬ 6 ≤ (pushHist t.maxlen t.history persons.length).length := by
            have := pushHist_length_le t.maxlen t.history persons.length
            omega
          rw [if_neg hs6, if_neg ht6]
          rfl
        · rw [if_neg h3, if_neg h3]
          rfl

theorem highway_idem_fresh (dets : List Detection) (fh : ℚ) :
    (HighwayAnalyzer.analyze
      (HighwayAnalyzer.analyze HighwayState.init dets fh).2 dets fh).1 =
      (HighwayAnalyzer.analyze HighwayState.init dets fh).1 := by
  simp only [HighwayAnalyzer.analyze, HighwayState.init]
  have ha : (pushHist 30 ([] : List ℕ) (dets.filter isVehicle).length).length ≤ 1 := by
    simpa using pushHist_length_le 30 ([] : List ℕ) (dets.filter isVehicle).length
  have h1 : (pushHist 30 ([] : List ℕ) (dets.filter isVehicle).length).length < 6 := by
    omega
  have h2 : (pushHist 30 (pushHist 30 ([] : List ℕ) (dets.filter isVehicle).length)
      (dets.filter isVehicle).length).length < 6 := by
    have := pushHist_length_le 30 (pushHist 30 ([] : List ℕ) (dets.filter isVehicle).length)
      (dets.filter isVehicle).length
    omega
  rw [guardedTrend_short h1, guardedTrend_short h2]

theorem dist2_nonneg (a b : ℚ × ℚ) : 0 ≤ dist2 a b := by
  unfold dist2
  positivity

theorem dist2_eq_zero {a b : ℚ × ℚ} (h : dist2 a b = 0) :
    a.1 = b.1 ∧ a.2 = b.2 := by
  unfold dist2 at h
  constructor
  · have h1 : (a.1 - b.1) ^ 2 = 0 := by nlinarith [sq_nonneg (a.1 - b.1), sq_nonneg (a.2 - b.2)]
    have := pow_eq_zero_iff (n := 2) (by norm_num) |>.mp h1
    linarith
  · have h2 : (a.2 - b.2) ^ 2 = 0 := by nlinarith [sq_nonneg (a.1 - b.1), sq_nonneg (a.2 - b.2)]
    have := pow_eq_zero_iff (n := 2) (by norm_num) |>.mp h2
    linarith

theorem dist2_self (a : ℚ × ℚ) : dist2 a a = 0 := by
  unfold dist2
  ring

theorem foldl_bestStep_skip (c : ℚ × ℚ) (used : List ℕ) :
    ∀ (l : List (ℕ × Track)), (∀ p ∈ l, p.1 ∈ used) →
      ∀ acc, l.foldl (bestStep c used) acc = acc := by
  intro l
  induction l with
  | nil => intro _ acc; rfl
  | cons q l ih =>
    intro h acc
    have hq : bestStep c used acc q = acc := if_pos (h q (List.mem_cons_self _ _))
    rw [List.foldl_cons, hq]
    exact ih (fun p hp => h p (List.mem_cons_of_mem q hp)) acc

theorem bestMatch_all_used (c : ℚ × ℚ) (used : List ℕ)
    (tracks : List (ℕ × Track)) (h : ∀ p ∈ tracks, p.1 ∈ used) :
    bestMatch c used tracks = (none, BIG_DIST2) :=
  foldl_bestStep_skip c used tracks h (none, BIG_DIST2)

theorem foldl_bestStep_le_acc (c : ℚ × ℚ) (used : List ℕ) :
    ∀ (l : List (ℕ × Track)) (acc : Option ℕ × ℚ),
      (l.foldl (bestStep c used) acc).2 ≤ acc.2 := by
  intro l
  induction l with
  | nil => intro acc; exact le_refl _
  | cons q l ih =>
    intro acc
    rw [List.foldl_cons]
    refine le_trans (ih _) ?_
    unfold bestStep
    split
    · exact le_refl _
    · dsimp only
      split
      · next hlt => exact le_of_lt hlt
      · exact le_refl _

theorem foldl_bestStep_le_mem (c : ℚ × ℚ) (used : List ℕ) :
    ∀ (l : List (ℕ × Track)) (acc : Option ℕ × ℚ) (p : ℕ × Track),
      p ∈ l → p.1 ∉ used →
      (l.foldl (bestStep c used) acc).2 ≤ dist2 (p.2.x, p.2.y) c := by
  intro l
  induction l with
  | nil => intro acc p hp; cases hp
  | cons q l ih =>
    intro acc p hp hpu
    rw [List.foldl_cons]
    rcases List.mem_cons.mp hp with rfl | hp'
    · refine le_trans (foldl_bestStep_le_acc c used l _) ?_
      unfold bestStep
      rw [if_neg hpu]
      dsimp only
      split
      · exact le_refl _
      · next hnlt => exact le_of_not_lt hnlt
    · exact ih _ p hp' hpu

theorem foldl_bestStep_spec (c : ℚ × ℚ) (used : List ℕ)
    (L : List (ℕ × Track)) :
    ∀ (l : List (ℕ × Track)), (∀ p ∈ l, p ∈ L) →
      ∀ acc : Option ℕ × ℚ,
      (acc.1 = none → acc.2 = BIG_DIST2) →
      (∀ tid, acc.1 = some tid → ∃ tr, (tid, tr) ∈ L ∧ tid ∉ used ∧
        acc.2 = dist2 (tr.x, tr.y) c) →
      ((l.foldl (bestStep c used) acc).1 = none →
        (l.foldl (bestStep c used) acc).2 = BIG_DIST2) ∧
      (∀ tid, (l.foldl (bestStep c used) acc).1 = some tid →
        ∃ tr, (tid, tr) ∈ L ∧ tid ∉ used ∧
          (l.foldl (bestStep c used) acc).2 = dist2 (tr.x, tr.y) c) := by
  intro l
  induction l with
  | nil => intro _ acc h1 h2; exact ⟨h1, h2⟩
  | cons q l ih =>
    intro hL acc h1 h2
    rw [List.foldl_cons]
    have hqL : q ∈ L := hL q (List.mem_cons_self _ _)
    have hL' : ∀ p ∈ l, p ∈ L := fun p hp => hL p (List.mem_cons_of_mem q hp)
    by_cases hq : q.1 ∈ used
    · have hstep : bestStep c used acc q = acc := if_pos hq
      rw [hstep]
      exact ih hL' acc h1 h2
    · unfold bestStep
      rw [if_neg hq]
      dsimp only
      split
      · refine ih hL' _ (by intro h; cases h) ?_
        intro tid htid
        injection htid with htid
        subst htid
        exact ⟨q.2, by simpa using hqL, hq, rfl⟩
      · exact ih hL' acc h1 h2

theorem bestMatch_spec (c : ℚ × ℚ) (used : List ℕ)
    (tracks : List (ℕ × Track)) :
    ((bestMatch c used tracks).1 = none →
      (bestMatch c used tracks).2 = BIG_DIST2) ∧
    (∀ tid, (bestMatch c used tracks).1 = some tid →
      ∃ tr, (tid, tr) ∈ tracks ∧ tid ∉ used ∧
        (bestMatch c used tracks).2 = dist2 (tr.x, tr.y) c) :=
  foldl_bestStep_spec c used tracks tracks (fun _ hp => hp) (none, BIG_DIST2)
    (fun _ => rfl) (fun tid h => by cases h)

theorem matchLoop_all_used (r2 now : ℚ) :
    ∀ (cs : List (ℚ × ℚ)) (tracks : List (ℕ × Track)) (nid : ℕ)
      (used : List ℕ) (asg : List (ℕ × (ℚ × ℚ))),
      (∀ p ∈ tracks, p.1 ∈ used) →
      matchLoop r2 now cs tracks nid used asg =
        ((tracks ++ freshTracks nid now cs, nid + cs.length),
          asg ++ freshAsg nid cs) := by
  intro cs
  induction cs with
  | nil => intro tracks nid used asg _; simp [matchLoop, freshTracks, freshAsg]
  | cons c cs ih =>
    intro tracks nid used asg h
    rw [matchLoop]
    rw [bestMatch_all_used c used tracks h]
    dsimp only
    have h' : ∀ p ∈ tracks ++ [(nid, newTrack c now)], p.1 ∈ nid :: used := by
      intro p hp
      rcases List.mem_append.mp hp with hp | hp
      · exact List.mem_cons_of_mem _ (h p hp)
      · rcases List.mem_singleton.mp hp with rfl
        exact List.mem_cons_self _ _
    rw [ih _ (nid + 1) (nid :: used) _ h']
    simp only [freshTracks, freshAsg, List.append_assoc, List.singleton_append,
      List.length_cons]
    have harith : nid + 1 + cs.length = nid + (cs.length + 1) := by omega
    rw [harith]

theorem freshTracks_length (now : ℚ) :
    ∀ (cs : List (ℚ × ℚ)) (nid : ℕ), (freshTracks nid now cs).length = cs.length := by
  intro cs
  induction cs with
  | nil => intro nid; rfl
  | cons c cs ih => intro nid; simp [freshTracks, ih]

theorem freshTracks_fields (now : ℚ) :
    ∀ (cs : List (ℚ × ℚ)) (nid : ℕ), ∀ p ∈ freshTracks nid now cs,
      p.2.last_seen = now ∧ p.2.dwell_seconds = 0 ∧ nid ≤ p.1 := by
  intro cs
  induction cs with
  | nil => intro nid p hp; cases hp
  | cons c cs ih =>
    intro nid p hp
    rcases List.mem_cons.mp hp with rfl | hp'
    · exact ⟨rfl, rfl, le_refl _⟩
    · obtain ⟨h1, h2, h3⟩ := ih (nid + 1) p hp'
      exact ⟨h1, h2, le_trans (Nat.le_succ nid) h3⟩

theorem freshTracks_nodup (now : ℚ) :
    ∀ (cs : List (ℚ × ℚ)) (nid : ℕ),
      ((freshTracks nid now cs).map Prod.fst).Nodup := by
  intro cs
  induction cs with
  | nil => intro nid; simp [freshTracks]
  | cons c cs ih =>
    intro nid
    simp only [freshTracks, List.map_cons, List.nodup_cons]
    refine ⟨?_, ih (nid + 1)⟩
    intro hmem
    rcases List.mem_map.mp hmem with ⟨p, hp, hk⟩
    have := (freshTracks_fields now cs (nid + 1) p hp).2.2
    omega

theorem freshTracks_pos (now : ℚ) :
    ∀ (cs : List (ℚ × ℚ)) (nid : ℕ),
      (freshTracks nid now cs).map posOf = cs := by
  intro cs
  induction cs with
  | nil => intro nid; rfl
  | cons c cs ih =>
    intro nid
    simp only [freshTracks, List.map_cons, ih]
    rfl

theorem freshAsg_spec (now : ℚ) :
    ∀ (cs : List (ℚ × ℚ)) (nid : ℕ), ∀ a ∈ freshAsg nid cs,
      ∃ tr, (a.1, tr) ∈ freshTracks nid now cs ∧ tr.x = a.2.1 ∧
        tr.y = a.2.2 ∧ tr.last_seen = now := by
  intro cs
  induction cs with
  | nil => intro nid a ha; cases ha
  | cons c cs ih =>
    intro nid a ha
    rcases List.mem_cons.mp ha with rfl | ha'
    · exact ⟨newTrack c now, List.mem_cons_self _ _, rfl, rfl, rfl⟩
    · obtain ⟨tr, h1, h2, h3, h4⟩ := ih (nid + 1) a ha'
      exact ⟨tr, List.mem_cons_of_mem _ h1, h2, h3, h4⟩

theorem updateTrack_id (now r2 : ℚ) (c : ℚ × ℚ) (tr : Track)
    (hx : tr.x = c.1) (hy : tr.y = c.2) (hl : tr.last_seen = now)
    (hr2 : 0 ≤ r2) : updateTrack now r2 c tr = tr := by
  obtain ⟨x, y, fs, ls, dw⟩ := tr
  simp only at hx hy hl
  subst hx hy hl
  unfold updateTrack
  simp [dist2_self, sub_self, hr2, div_nonneg hr2]

theorem applyAssignments_id (now r2 : ℚ) (hr2 : 0 ≤ r2) :
    ∀ (asg : List (ℕ × (ℚ × ℚ))) (tracks : List (ℕ × Track)),
      (tracks.map Prod.fst).Nodup →
      (∀ a ∈ asg, ∃ tr, (a.1, tr) ∈ tracks ∧ tr.x = a.2.1 ∧
        tr.y = a.2.2 ∧ tr.last_seen = now) →
      applyAssignments now r2 tracks asg = tracks := by
  intro asg
  induction asg with
  | nil => intro tracks _ _; rfl
  | cons a asg ih =>
    intro tracks hnd hs
    obtain ⟨tr, htr, hx, hy, hl⟩ := hs a (List.mem_cons_self _ _)
    have hstep : applyAssignments now r2 tracks (a :: asg) =
        applyAssignments now r2
          (tracks.map fun p =>
            if p.1 = a.1 then (p.1, updateTrack now r2 a.2 p.2) else p) asg := rfl
    have hpt : ∀ p ∈ tracks,
        (if p.1 = a.1 then (p.1, updateTrack now r2 a.2 p.2) else p) = p := by
      intro p hp
      by_cases hk : p.1 = a.1
      · rw [if_pos hk]
        have hpmem : (p.1, p.2) ∈ tracks := hp
        rw [hk] at hpmem
        have hp2 : p.2 = tr := assoc_key_unique hnd hpmem htr
        rw [hp2, updateTrack_id now r2 a.2 tr hx hy hl hr2, ← hp2]
      · rw [if_neg hk]
    have hmap : (tracks.map fun p =>
        if p.1 = a.1 then (p.1, updateTrack now r2 a.2 p.2) else p) = tracks := by
      calc (tracks.map fun p =>
              if p.1 = a.1 then (p.1, updateTrack now r2 a.2 p.2) else p)
          = tracks.map id :=
            List.map_congr_left (by intro p hp; rw [hpt p hp]; rfl)
        _ = tracks := List.map_id tracks
    rw [hstep, hmap]
    exact ih tracks hnd (fun b hb => hs b (List.mem_cons_of_mem a hb))

theorem availCount_ignore (used : List ℕ) (tid : ℕ) (c : ℚ × ℚ) :
    ∀ ts : List (ℕ × Track), (∀ p ∈ ts, p.1 ≠ tid) →
      availCount ts (tid :: used) c = availCount ts used c := by
  intro ts h
  unfold availCount
  rw [List.filter_congr]
  intro p hp
  have hne := h p hp
  simp [List.mem_cons, hne]

theorem availCount_cons_used (c' : ℚ × ℚ) (used : List ℕ) (tid : ℕ)
    (tr : Track) :
    ∀ tracks : List (ℕ × Track), (tracks.map Prod.fst).Nodup →
      (tid, tr) ∈ tracks → tid ∉ used →
      availCount tracks used c' =
        availCount tracks (tid :: used) c' +
          (if posOf ((tid, tr) : ℕ × Track) = c' then 1 else 0) := by
  intro tracks
  induction tracks with
  | nil => intro _ hmem _; cases hmem
  | cons q ts ih =>
    intro hnd hmem hnu
    rw [List.map_cons, List.nodup_cons] at hnd
    rcases List.mem_cons.mp hmem with heq | hmem'
    · rcases heq.symm with rfl
      have hts : ∀ p ∈ ts, p.1 ≠ tid := by
        intro p hp hk
        exact hnd.1 (List.mem_map.mpr ⟨p, hp, hk⟩)
      have hIG := availCount_ignore used tid c' ts hts
      unfold availCount at hIG ⊢
      have h1 : (decide ((tid, tr).1 ∉ (tid :: used) ∧
          posOf ((tid, tr) : ℕ × Track) = c')) = false := by
        simp
      by_cases hpos : posOf ((tid, tr) : ℕ × Track) = c'
      · have h2 : (decide ((tid, tr).1 ∉ used ∧
            posOf ((tid, tr) : ℕ × Track) = c')) = true := by
          simp [hnu, hpos]
        rw [if_pos hpos]
        simp only [List.filter_cons, h1, h2, Bool.false_eq_true, if_false,
          if_true, List.length_cons]
        omega
      · have h2 : (decide ((tid, tr).1 ∉ used ∧
            posOf ((tid, tr) : ℕ × Track) = c')) = false := by
          simp [hpos]
        rw [if_neg hpos]
        simp only [List.filter_cons, h1, h2, Bool.false_eq_true, if_false,
          List.length_cons]
        omega
    · have hq : q.1 ≠ tid := by
        intro hk
        exact hnd.1 (List.mem_map.mpr ⟨(tid, tr), hmem', hk.symm⟩)
      have hih := ih hnd.2 hmem' hnu
      unfold availCount at hih ⊢
      rw [List.filter_cons, List.filter_cons]
      have hcond : (decide (q.1 ∉ (tid :: used) ∧ posOf q = c')) =
          (decide (q.1 ∉ used ∧ posOf q = c')) := by
        simp [List.mem_cons, hq]
      rw [hcond]
      split <;> (try simp only [List.length_cons]) <;> omega

theorem exists_of_availCount_pos {tracks : List (ℕ × Track)}
    {used : List ℕ} {c : ℚ × ℚ} (h : 0 < availCount tracks used c) :
    ∃ p ∈ tracks, p.1 ∉ used ∧ posOf p = c := by
  unfold availCount at h
  rw [List.length_pos] at h
  obtain ⟨p, hp⟩ := List.exists_mem_of_ne_nil _ h
  obtain ⟨hmem, hpred⟩ := List.mem_filter.mp hp
  exact ⟨p, hmem, of_decide_eq_true hpred⟩

theorem availCount_nil_used (c : ℚ × ℚ) :
    ∀ tracks : List (ℕ × Track),
      availCount tracks [] c = (tracks.map posOf).count c := by
  intro tracks
  have haux : ∀ ts : List (ℕ × Track),
      (ts.filter fun p => decide (posOf p = c)).length =
        (ts.map posOf).count c := by
    intro ts
    induction ts with
    | nil => rfl
    | cons q ts ih =>
      by_cases hq : posOf q = c
      · simp [List.filter_cons, List.count_cons, hq, ih]
      · simp [List.filter_cons, List.count_cons, hq, ih]
  unfold availCount
  rw [List.filter_congr (fun p _ => by simp : ∀ p ∈ tracks,
    (decide (p.1 ∉ ([] : List ℕ) ∧ posOf p = c)) = decide (posOf p = c))]
  exact haux tracks

theorem matchLoop_perfect (r2 now : ℚ) (hr2 : 0 ≤ r2) :
    ∀ (cs : List (ℚ × ℚ)) (tracks : List (ℕ × Track)) (nid : ℕ)
      (used : List ℕ) (asg : List (ℕ × (ℚ × ℚ))),
      (tracks.map Prod.fst).Nodup →
      (∀ c, cs.count c ≤ availCount tracks used c) →
      (matchLoop r2 now cs tracks nid used asg).1 = (tracks, nid) ∧
      ∀ a ∈ (matchLoop r2 now cs tracks nid used asg).2,
        a ∈ asg ∨ ∃ tr, (a.1, tr) ∈ tracks ∧ tr.x = a.2.1 ∧ tr.y = a.2.2 := by
  intro cs
  induction cs with
  | nil =>
    intro tracks nid used asg _ _
    exact ⟨rfl, fun a ha => Or.inl ha⟩
  | cons c cs ih =>
    intro tracks nid used asg hnd hinv
    have hpos : 0 < availCount tracks used c := by
      have := hinv c
      rw [List.count_cons_self] at this
      omega
    obtain ⟨e, he, heu, hec⟩ := exists_of_availCount_pos hpos
    have hminle : (bestMatch c used tracks).2 ≤ 0 := by
      have := foldl_bestStep_le_mem c used tracks (none, BIG_DIST2) e he heu
      unfold bestMatch
      unfold posOf at hec
      rw [hec] at this
      rw [dist2_self] at this
      exact this
    have hnn : (bestMatch c used tracks).1 ≠ none := by
      intro hno
      have := (bestMatch_spec c used tracks).1 hno
      rw [this] at hminle
      norm_num [BIG_DIST2] at hminle
    obtain ⟨tid, htid⟩ := Option.ne_none_iff_exists'.mp hnn
    obtain ⟨tr, htr_mem, htr_nu, htr_d⟩ := (bestMatch_spec c used tracks).2 tid htid
    have hd0 : dist2 (tr.x, tr.y) c = 0 :=
      le_antisymm (htr_d ▸ hminle) (dist2_nonneg _ _)
    obtain ⟨hx, hy⟩ := dist2_eq_zero hd0
    rw [matchLoop, htid]
    dsimp only
    rw [if_pos (le_trans (htr_d ▸ hminle) hr2)]
    have hinv' : ∀ c', cs.count c' ≤ availCount tracks (tid :: used) c' := by
      intro c'
      have hsplit := availCount_cons_used c' used tid tr tracks hnd htr_mem htr_nu
      have hcnt := hinv c'
      have hpose : posOf ((tid, tr) : ℕ × Track) = c := by
        unfold posOf
        exact Prod.ext hx hy
      by_cases hcc : c' = c
      · subst hcc
        rw [List.count_cons_self] at hcnt
        rw [if_pos hpose] at hsplit
        omega
      · rw [List.count_cons_of_ne hcc] at hcnt
        rw [hpose] at hsplit
        rw [if_neg (fun hh => hcc hh.symm)] at hsplit
        omega
    obtain ⟨ih1, ih2⟩ := ih tracks nid (tid :: used) (asg ++ [(tid, c)]) hnd hinv'
    refine ⟨ih1, ?_⟩
    intro a ha
    rcases ih2 a ha with haa | hfound
    · rcases List.mem_append.mp haa with h | h
      · exact Or.inl h
      · rcases List.mem_singleton.mp h with rfl
        exact Or.inr ⟨tr, htr_mem, hx, hy⟩
    · exact Or.inr hfound

theorem freshTracks_loiterers_nil (now ls : ℚ) (hls : 0 < ls)
    (cs : List (ℚ × ℚ)) (nid : ℕ) :
    (freshTracks nid now cs).filter (fun p => p.2.dwell_seconds ≥ ls) = [] := by
  rw [List.filter_eq_nil_iff]
  intro p hp
  have hd := (freshTracks_fields now cs nid p hp).2.1
  simp [hd]
  linarith

/-- The first `analyze` call on a fresh tracker: every centroid creates
a new track (ids `1..n`), dwell times are all zero and no loiterer is
reported. -/
theorem loiter_analyze_fresh (dets : List Detection) (now : ℚ) :
    LoiterAnalyzer.analyze LoiterState.init dets now =
      ({ enabled := true, threshold_seconds := 25,
         active_tracks := ((dets.filter isLoiterPerson).map
           (fun p => centroid (bboxOrZero p))).length,
         loiterers := [], loiter_count := 0 },
       { loiter_seconds := 25, match_radius_px := 60,
         max_track_age_seconds := 3,
         tracks := freshTracks 1 now ((dets.filter isLoiterPerson).map
           (fun p => centroid (bboxOrZero p))),
         next_id := 1 + ((dets.filter isLoiterPerson).map
           (fun p => centroid (bboxOrZero p))).length }) := by
  simp only [LoiterAnalyzer.analyze, LoiterState.init, List.filter_nil]
  rw [matchLoop_all_used ((60 : ℚ) ^ 2) now _ [] 1 [] [] (by intro p hp; cases hp)]
  simp only [List.nil_append]
  rw [applyAssignments_id now ((60 : ℚ) ^ 2) (by norm_num) _ _
    (freshTracks_nodup now _ 1) (freshAsg_spec now _ 1)]
  rw [freshTracks_loiterers_nil now 25 (by norm_num)]
  simp [freshTracks_length]

/-- The second `analyze` call at the same instant: nothing is stale
(age 0), every centroid re-matches a track at distance zero, dwell times
stay zero, and the reported output coincides with the first call's. -/
theorem loiter_idem_fresh (dets : List Detection) (now : ℚ) :
    (LoiterAnalyzer.analyze
      (LoiterAnalyzer.analyze LoiterState.init dets now).2 dets now).1 =
      (LoiterAnalyzer.analyze LoiterState.init dets now).1 := by
  rw [loiter_analyze_fresh]
  simp only [LoiterAnalyzer.analyze]
  have hfil : (freshTracks 1 now ((dets.filter isLoiterPerson).map
      (fun p => centroid (bboxOrZero p)))).filter
      (fun p => ¬ (now - p.2.last_seen > (3 : ℚ))) =
      freshTracks 1 now ((dets.filter isLoiterPerson).map
        (fun p => centroid (bboxOrZero p))) := by
    rw [List.filter_eq_self]
    intro p hp
    have hls := (freshTracks_fields now _ 1 p hp).1
    rw [hls]
    simp
  rw [hfil]
  have hinv : ∀ c, ((dets.filter isLoiterPerson).map
      (fun p => centroid (bboxOrZero p))).count c ≤
      availCount (freshTracks 1 now ((dets.filter isLoiterPerson).map
        (fun p => centroid (bboxOrZero p)))) [] c := by
    intro c
    rw [availCount_nil_used, freshTracks_pos]
  have hm := matchLoop_perfect ((60 : ℚ) ^ 2) now (by norm_num)
    ((dets.filter isLoiterPerson).map (fun p => centroid (bboxOrZero p)))
    (freshTracks 1 now ((dets.filter isLoiterPerson).map
      (fun p => centroid (bboxOrZero p))))
    (1 + ((dets.filter isLoiterPerson).map
      (fun p => centroid (bboxOrZero p))).length) [] []
    (freshTracks_nodup now _ 1) hinv
  have hm1 := congrArg Prod.fst hm.1
  have happ : applyAssignments now ((60 : ℚ) ^ 2)
      (matchLoop ((60 : ℚ) ^ 2) now
        ((dets.filter isLoiterPerson).map (fun p => centroid (bboxOrZero p)))
        (freshTracks 1 now ((dets.filter isLoiterPerson).map
          (fun p => centroid (bboxOrZero p))))
        (1 + ((dets.filter isLoiterPerson).map
          (fun p => centroid (bboxOrZero p))).length) [] []).1.1
      (matchLoop ((60 : ℚ) ^ 2) now
        ((dets.filter isLoiterPerson).map (fun p => centroid (bboxOrZero p)))
        (freshTracks 1 now ((dets.filter isLoiterPerson).map
          (fun p => centroid (bboxOrZero p))))
        (1 + ((dets.filter isLoiterPerson).map
          (fun p => centroid (bboxOrZero p))).length) [] []).2 =
      freshTracks 1 now ((dets.filter isLoiterPerson).map
        (fun p => centroid (bboxOrZero p))) := by
    rw [hm1]
    apply applyAssignments_id now ((60 : ℚ) ^ 2) (by norm_num) _ _
      (freshTracks_nodup now _ 1)
    intro a ha
    rcases hm.2 a ha with h | ⟨tr, hmem, hx, hy⟩
    · cases h
    · exact ⟨tr, hmem, hx, hy, (freshTracks_fields now _ 1 _ hmem).1⟩
  rw [happ]
  rw [freshTracks_loiterers_nil now 25 (by norm_num)]
  simp [freshTracks_length]

theorem crowd_idem_fresh (dets : List Detection) (w : ℚ) :
    (CrowdAnalyzer.analyze
      (((CrowdAnalyzer.analyze CrowdState.init dets w).map Prod.snd).getD
        CrowdState.init) dets w).map Prod.fst =
      (CrowdAnalyzer.analyze CrowdState.init dets w).map Prod.fst := by
  cases hr : CrowdAnalyzer.analyze CrowdState.init dets w with
  | none =>
    simp only [Option.map_none', Option.getD_none]
    rw [hr]
    rfl
  | some pr =>
    obtain ⟨out1, s1⟩ := pr
    simp only [Option.map_some', Option.getD_some]
    have hb := crowd_post_history dets w CrowdState.init out1 s1 hr
    have hs1 : s1.history.length ≤ 4 := by
      have : (CrowdState.init : CrowdState).history.length = 0 := rfl
      omega
    have hinit : (CrowdState.init : CrowdState).history.length ≤ 4 := by
      simp [CrowdState.init]
    rw [crowd_out_hist_invariant dets w s1 CrowdState.init hs1 hinit, hr]
    rfl

/-- C4: on freshly constructed engines, calling `analyze` twice with
identical detections, frame size and `now` yields identical output both
times (matching is deterministic given input order): for the crowd
analyzer the whole result (including a raised `KeyError`, which then
repeats identically), for the loiter and highway analyzers the returned
report. -/
theorem analyze_twice_fresh_idempotent :
    (∀ (dets : List Detection) (w : ℚ),
      (CrowdAnalyzer.analyze
        (((CrowdAnalyzer.analyze CrowdState.init dets w).map Prod.snd).getD
          CrowdState.init) dets w).map Prod.fst =
        (CrowdAnalyzer.analyze CrowdState.init dets w).map Prod.fst) ∧
    (∀ (dets : List Detection) (now : ℚ),
      (LoiterAnalyzer.analyze
        (LoiterAnalyzer.analyze LoiterState.init dets now).2 dets now).1 =
        (LoiterAnalyzer.analyze LoiterState.init dets now).1) ∧
    (∀ (dets : List Detection) (fh : ℚ),
      (HighwayAnalyzer.analyze
        (HighwayAnalyzer.analyze HighwayState.init dets fh).2 dets fh).1 =
        (HighwayAnalyzer.analyze HighwayState.init dets fh).1) :=
  ⟨crowd_idem_fresh, loiter_idem_fresh, highway_idem_fresh⟩

end Urbanii
